import Mathlib

/-!
Verification development for the elerium repository: a translator from the
Monotype (MTI) table-dump text format for OpenType Layout tables into
feature-file text, plus a UFO-wrapper presentation layer.

The definitions below are a shallow embedding of the repository's code.
Code under `src/src/elerium` (`util.py`, `otufo.py`) is embedded directly
from the source.  The MTI parser module (`elerium/mti_parser.py`) is not
present in the source tree (only its tests are), so its data model and
algorithms are modelled from the specification document, as marked in the
doc comments of the corresponding definitions.
-/

namespace Elerium

/-! ## Geometry (embedded from src/src/elerium/util.py)

`equivalent_point` uses Python float arithmetic; it is embedded here over
exact rationals, with Python's `ZeroDivisionError` (raised when the source
bounding box has zero width or height, since the scale divisions are
unguarded) represented as `none`, and Python's `int(...)`
truncation-toward-zero represented as `ratTrunc`. -/

structure RatPoint where
  x : Rat
  y : Rat
deriving DecidableEq, Repr

structure IntPoint where
  x : Int
  y : Int
deriving DecidableEq, Repr

structure BoundingBox where
  xMin : Rat
  yMin : Rat
  xMax : Rat
  yMax : Rat
deriving DecidableEq, Repr

/-- Truncation toward zero, the behaviour of Python's `int()` on a number. -/
def ratTrunc (q : Rat) : Int :=
  q.num.tdiv (q.den : Int)

/-- Embedded from `util.equivalent_point`.  The affine map composed there
(`translate(dest_min) . scale(dest_size/source_size) . translate(-source_min)`)
sends `p` to `(p - source_min) * (dest_size / source_size) + dest_min`
componentwise; both coordinates are then truncated with `int()`.  The two
scale divisions are unguarded in the source, so a source box of zero width
or zero height raises `ZeroDivisionError`, modelled as `none`. -/
def equivalent_point (source_point : RatPoint) (source_bb dest_bb : BoundingBox) : Option IntPoint :=
  let source_width := source_bb.xMax - source_bb.xMin
  let source_height := source_bb.yMax - source_bb.yMin
  let dest_width := dest_bb.xMax - dest_bb.xMin
  let dest_height := dest_bb.yMax - dest_bb.yMin
  if source_width = 0 ∨ source_height = 0 then none
  else
    let dest_x := (source_point.x - source_bb.xMin) * (dest_width / source_width) + dest_bb.xMin
    let dest_y := (source_point.y - source_bb.yMin) * (dest_height / source_height) + dest_bb.yMin
    some ⟨ratTrunc dest_x, ratTrunc dest_y⟩

/-! ## UFO wrapper (embedded from src/src/elerium/otufo.py) -/

/-- Embedded from `otufo.GlyphClass` (an `IntEnum` with values 1..4). -/
inductive GlyphClassEnum
  | BASE
  | LIGATURE
  | MARK
  | COMPONENT
deriving DecidableEq, Repr

/-- Conversion `GlyphClass(classnum)`: defined for 1..4 only. -/
def glyphClassOfNat : Nat → Option GlyphClassEnum
  | 1 => some .BASE
  | 2 => some .LIGATURE
  | 3 => some .MARK
  | 4 => some .COMPONENT
  | _ => none

/-- The part of a compiled GDEF table that `Font.glyph_classes` reads:
the glyph-name to class-number mapping `table.GlyphClassDef.classDefs`. -/
structure GdefTable where
  classDefs : List (String × Nat)
deriving DecidableEq, Repr

/-- Embedded from `otufo.Font`: only the fields the verified accessors
read.  `features` is `parse_ufo_features(self.ufo)`, which is `None` when
the UFO has no feature text; the feature AST itself is kept abstract as a
type parameter.  `all_glyphs` is the official glyph order. -/
structure FontModel (φ : Type) where
  features : Option φ
  all_glyphs : List String
deriving DecidableEq

/-- Embedded from `otufo.Font._gdef`: returns `None` when `features` is
`None`, else compiles the features.  `compileGDEF` comes from the external
`ufo2ft` collaborator, so it is a parameter here. -/
def Font.gdefTable {φ : Type} (compileGDEF : φ → List String → GdefTable) (f : FontModel φ) : Option GdefTable :=
  match f.features with
  | none => none
  | some feats => some (compileGDEF feats f.all_glyphs)

/-- Embedded from `otufo.Font.glyph_classes`: returns `None` when `_gdef`
is `None`, else maps each glyph to its `GlyphClass` enum value. -/
def Font.glyph_classes {φ : Type} (compileGDEF : φ → List String → GdefTable) (f : FontModel φ) :
    Option (List (String × GlyphClassEnum)) :=
  match Font.gdefTable compileGDEF f with
  | none => none
  | some t => some (t.classDefs.filterMap (fun gc => (glyphClassOfNat gc.2).map (fun e => (gc.1, e))))

/-- Embedded from `otufo.LookupFlag` (the dataclass wrapping an
`ast.LookupFlagStatement`): the numeric flag value plus the optional
mark-attachment and mark-filtering glyph-class references (kept as names). -/
structure LookupFlag where
  flag : Nat
  markAttachment : Option String
  markFilteringSet : Option String
deriving DecidableEq, Repr

/-- Embedded from `otufo.LookupFlag.from_ast`. -/
def LookupFlag.from_ast (value : Nat) (ma mf : Option String) : LookupFlag :=
  ⟨value, ma, mf⟩

/-- A statement inside a feaLib lookup block, as `Lookup.from_lookup_reference`
distinguishes them: either an `ast.LookupFlagStatement` or any other rule
statement (kept abstract as a type parameter). -/
inductive FeaStmt (α : Type)
  | flagStmt (value : Nat) (markAttachment : Option String) (markFilteringSet : Option String)
  | ruleStmt (r : α)
deriving DecidableEq, Repr

def FeaStmt.isFlag {α : Type} : FeaStmt α → Bool
  | .flagStmt _ _ _ => true
  | .ruleStmt _ => false

/-- The result of `otufo.Lookup.from_lookup_reference`: name, optional
flags, and the non-flag statements in order. -/
structure OtufoLookup (α : Type) where
  name : String
  flags : Option LookupFlag
  rules : List (FeaStmt α)
deriving DecidableEq

/-- One iteration of the loop in `otufo.Lookup.from_lookup_reference`: a
`LookupFlagStatement` sets `flags` (and is skipped), every other statement
is appended to `rules`. -/
def flrStep {α : Type} (acc : Option LookupFlag × List (FeaStmt α)) (s : FeaStmt α) :
    Option LookupFlag × List (FeaStmt α) :=
  match s with
  | .flagStmt v ma mf => (some (LookupFlag.from_ast v ma mf), acc.2)
  | .ruleStmt _ => (acc.1, acc.2 ++ [s])

/-- Embedded from `otufo.Lookup.from_lookup_reference`: iterate over the
block's statements with `flrStep`. -/
def from_lookup_reference {α : Type} (name : String) (stmts : List (FeaStmt α)) : OtufoLookup α :=
  let res := stmts.foldl flrStep (none, [])
  ⟨name, res.1, res.2⟩

/-! ## MTI parser data model

Modelled from the spec: the module `elerium/mti_parser.py` (glyph-definition,
positioning and substitution parsers, mark-class registry, lookup registry,
feature assembler, serializer) is not present under `src/`; only its tests
are.  The definitions in this section follow the spec's data model (section 3)
and component contracts (section 4). -/

/-- Modelled from the spec: a GlyphSet is either a single glyph name or an
ordered, non-unique-checked sequence of glyph names representing a class
(mti_parser is missing from src). -/
inductive GlyphSet
  | single (g : String)
  | cls (gs : List String)
deriving DecidableEq, Repr

/-- Modelled from the spec: an attachment coordinate, optionally tied to a
specific outline point (mti_parser is missing from src). -/
structure AnchorPoint where
  x : Int
  y : Int
  contour_point : Option Int
deriving DecidableEq, Repr

/-- A positioning value record (placement and advance adjustments). -/
structure ValueRecord where
  xPlacement : Int
  yPlacement : Int
  xAdvance : Int
  yAdvance : Int
deriving DecidableEq, Repr

/-- Modelled from the spec: the source representation of a lookup invocation
inside a ChainContext* rule records, per invoked lookup, its positional slot
among the marked positions and an explicit intended application-order index
(mti_parser is missing from src). -/
structure LookupInvocation where
  pos : Nat
  appOrder : Nat
  lookupId : String
deriving DecidableEq, Repr

/-- Modelled from the spec: the closed Rule variant type of section 3, with
each variant carrying its glyph-set operands, contexts, and (for the
chain-context variants) the marked positions and lookup invocations
(mti_parser is missing from src). -/
inductive Rule
  | singlePos (target : GlyphSet) (value : ValueRecord)
  | pairPos (first : GlyphSet) (value1 : ValueRecord) (second : GlyphSet)
  | cursivePos (target : GlyphSet) (entryAnchor exitAnchor : AnchorPoint)
  | markToBasePos (base : GlyphSet) (markClassName : String)
  | markToLigaturePos (lig : GlyphSet) (markClassName : String) (componentCount : Nat)
  | chainContextPos (ctxBefore marked ctxAfter : List GlyphSet) (invocations : List LookupInvocation)
  | singleSub (target replacement : GlyphSet)
  | multipleSub (target : String) (replacement : List String)
  | alternateSub (target : String) (alternates : List String)
  | ligatureSub (components : List GlyphSet) (replacement : String)
  | chainContextSub (ctxBefore marked ctxAfter : List GlyphSet) (invocations : List LookupInvocation)
  | reverseChainSub (oldPre oldSuf : List GlyphSet) (target replacement : GlyphSet)
deriving DecidableEq, Repr

/-- The lookup invocations of a rule: nonempty only for the ChainContext*
variants. -/
def Rule.invocations : Rule → List LookupInvocation
  | .chainContextPos _ _ _ invs => invs
  | .chainContextSub _ _ _ invs => invs
  | _ => []

/-- The lookup ids invoked inside a rule. -/
def Rule.invokedIds (r : Rule) : List String :=
  r.invocations.map (·.lookupId)

def Rule.isChainContext : Rule → Bool
  | .chainContextPos _ _ _ _ => true
  | .chainContextSub _ _ _ _ => true
  | _ => false

/-- Modelled from the spec: dependencies are derived automatically from any
ChainContext* rule's invoked-lookup references, as a set of lookup ids
(mti_parser is missing from src). -/
def buildDependencies (rules : List Rule) : List String :=
  (rules.flatMap Rule.invokedIds).dedup

/-- Modelled from the spec: a registered lookup with its id, rules in parse
order, and automatically derived dependencies (mti_parser is missing from
src). -/
structure ParsedLookup where
  lookupId : String
  rules : List Rule
  dependencies : List String
deriving DecidableEq, Repr

/-- Builds a fully parsed lookup, deriving its dependency set from its
rules. -/
def mkParsedLookup (lookupId : String) (rules : List Rule) : ParsedLookup :=
  ⟨lookupId, rules, buildDependencies rules⟩

/-! ## Ordering-ambiguity detection and lookup emission

Modelled from the spec, section 4.3: the intended application order of the
invocations of a chain-context rule is obtained by sorting them by their
application-order index; if the resulting position sequence is not the
left-to-right positional order, the target grammar cannot express the
requested order, so a warning is emitted, a comment statement is inserted
before the rule, and the emitted rule falls back to positional order. -/

instance : DecidableRel (fun a b : LookupInvocation => a.appOrder ≤ b.appOrder) :=
  fun a b => Nat.decLe a.appOrder b.appOrder

/-- The invocations of a rule sorted into intended application order (by
their application-order index; a stable sort). -/
def sortByAppOrder (invs : List LookupInvocation) : List LookupInvocation :=
  List.insertionSort (fun a b => a.appOrder ≤ b.appOrder) invs

/-- The positional slots of a rule's invocations, listed in intended
application order. -/
def appOrderPositions (r : Rule) : List Nat :=
  (sortByAppOrder r.invocations).map LookupInvocation.pos

/-- Operational ascending-order check on a position sequence. -/
def isAscending : List Nat → Bool
  | [] => true
  | [_] => true
  | a :: b :: rest => a ≤ b && isAscending (b :: rest)

/-- Operational detection of an inexpressible application order. -/
def outOfOrder (invs : List LookupInvocation) : Bool :=
  !(isAscending ((sortByAppOrder invs).map LookupInvocation.pos))

/-- The ambiguity check as the claim states it: the declared
application-order indices, sorted, yield a position sequence that differs
from the left-to-right positional order of the marked positions. -/
def specAmbiguous (r : Rule) : Prop :=
  appOrderPositions r ≠ List.insertionSort (· ≤ ·) (appOrderPositions r)

instance (r : Rule) : Decidable (specAmbiguous r) := by
  unfold specAmbiguous
  infer_instance

/-- The operational ambiguity check on a whole rule. -/
def ambiguousB (r : Rule) : Bool :=
  !(isAscending (appOrderPositions r))

/-- Modelled from the spec: a non-fatal ordering warning identifying the
lookup id and the conflicting (position, lookup-id) pairs (mti_parser is
missing from src). -/
structure OrderingWarning where
  lookupId : String
  conflicting : List (Nat × String)
deriving DecidableEq, Repr

/-- The conflicting (position, lookup-id) pairs reported by a warning, in
intended application order. -/
def conflictPairs (invs : List LookupInvocation) : List (Nat × String) :=
  (sortByAppOrder invs).map (fun v => (v.pos, v.lookupId))

/-- A statement of the emitted lookup: an explanatory comment, an emitted
chain-context statement whose invocations are attached per positional slot,
or any other rule passed through. -/
inductive EmittedStmt
  | comment (lookupId : String) (conflicting : List (Nat × String))
  | chainStmt (isSub : Bool) (ctxBefore marked ctxAfter : List GlyphSet) (slots : List (List String))
  | plain (r : Rule)
deriving DecidableEq, Repr

def EmittedStmt.isComment : EmittedStmt → Bool
  | .comment _ _ => true
  | _ => false

/-- Distributes invocations into per-position slots: each invocation's
lookup id is appended to the slot of its declared positional index (an
invocation whose position is out of range is dropped). -/
def fillSlots : List LookupInvocation → List (List String) → List (List String)
  | [], slots => slots
  | v :: rest, slots => fillSlots rest (slots.set v.pos (slots.getD v.pos [] ++ [v.lookupId]))

/-- The per-position invocation slots of an emitted chain-context statement
over `n` marked positions: invocations are taken in intended application
order and placed at their positional slots, so the emitted statement always
applies them in positional order. -/
def chainSlots (n : Nat) (invs : List LookupInvocation) : List (List String) :=
  fillSlots (sortByAppOrder invs) (List.replicate n [])

/-- Modelled from the spec: emission of one rule of a lookup.  A
chain-context rule whose intended application order is inexpressible yields
one warning and one inserted comment statement immediately before it, and
the emitted rule uses positional order; every other case emits the rule
alone (mti_parser is missing from src). -/
def emitRule (lookupId : String) : Rule → List OrderingWarning × List EmittedStmt
  | .chainContextPos ctxBefore marked ctxAfter invs =>
      let s := EmittedStmt.chainStmt false ctxBefore marked ctxAfter (chainSlots marked.length invs)
      if outOfOrder invs then
        ([⟨lookupId, conflictPairs invs⟩], [EmittedStmt.comment lookupId (conflictPairs invs), s])
      else ([], [s])
  | .chainContextSub ctxBefore marked ctxAfter invs =>
      let s := EmittedStmt.chainStmt true ctxBefore marked ctxAfter (chainSlots marked.length invs)
      if outOfOrder invs then
        ([⟨lookupId, conflictPairs invs⟩], [EmittedStmt.comment lookupId (conflictPairs invs), s])
      else ([], [s])
  | r => ([], [EmittedStmt.plain r])

/-- Emission of all rules of a lookup, collecting warnings and statements
in rule order. -/
def emitRules (lookupId : String) : List Rule → List OrderingWarning × List EmittedStmt
  | [] => ([], [])
  | r :: rest =>
      let first := emitRule lookupId r
      let later := emitRules lookupId rest
      (first.1 ++ later.1, first.2 ++ later.2)

/-! ## Mark-class registry -/

/-- Modelled from the spec: a named group of mark glyphs each carrying an
anchor point; identified by name (mti_parser is missing from src). -/
structure MarkClass where
  name : String
  definitions : List (GlyphSet × AnchorPoint)
deriving DecidableEq, Repr

/-- Modelled from the spec: the mark-class registry is create-if-absent,
else return existing — each occurrence of a mark-class reference first
checks the registry for an existing class of that name; if present, the
anchor/glyph-set list attached to this occurrence is ignored, only the
first definition site supplies the class's contents (mti_parser is missing
from src). -/
def registerMarkClass (reg : List MarkClass) (name : String) (defs : List (GlyphSet × AnchorPoint)) :
    List MarkClass :=
  if reg.any (fun mc => mc.name == name) then reg else reg ++ [⟨name, defs⟩]

/-! ## Glyph-definition parser -/

/-- Modelled from the spec: a fatal parse error carrying the offending
data; here, a class-definition row with a class number outside 1..4
(mti_parser is missing from src). -/
inductive ParseError
  | badClassNumber (glyph : String) (classNum : Nat)
deriving DecidableEq, Repr

/-- The glyphs assigned to positional class slot `c`, in row order. -/
def classSlot (rows : List (String × Nat)) (c : Nat) : List String :=
  (rows.filter (fun gc => gc.2 == c)).map Prod.fst

/-- Modelled from the spec: the class-definition sub-section of the
glyph-definition parser.  Input rows are pre-tokenized (glyph name, class
number) assignments; the result has exactly four positional class slots,
and a slot with no assigned glyphs is recorded as an empty sequence, never
as an absent value and never as a parse failure (mti_parser is missing
from src). -/
def parseGlyphClasses (rows : List (String × Nat)) : Except ParseError (List (List String)) :=
  match rows.find? (fun gc => !(1 ≤ gc.2 && gc.2 ≤ 4)) with
  | some gc => .error (.badClassNumber gc.1 gc.2)
  | none => .ok [classSlot rows 1, classSlot rows 2, classSlot rows 3, classSlot rows 4]

/-- Modelled from the spec: the GlyphDefinitions value of section 3 — four
positional glyph-class slots, attachment points, ligature carets,
mark-attachment classes, and numbered mark-filtering sets (mti_parser is
missing from src). -/
structure GlyphDefinitions where
  glyph_classes : List (List String)
  attachment_points : List (String × List Nat)
  ligature_carets : List (String × List Int)
  mark_attachment_classes : List (List String)
  mark_filter_sets : List (Nat × List String)
deriving DecidableEq, Repr

/-! ## Pair-positioning parsing and glyph-set serialization -/

/-- Space-joined concatenation of glyph names. -/
def joinSpace : List String → String
  | [] => ""
  | [g] => g
  | g :: rest => g ++ " " ++ joinSpace rest

/-- Modelled from the spec: serialization of a glyph-set operand — a class
is rendered in bracketed class syntax, a single glyph as its bare name;
the two forms are distinct syntax in the target grammar (mti_parser is
missing from src). -/
def renderGlyphSet : GlyphSet → String
  | .single g => g
  | .cls gs => "[" ++ joinSpace gs ++ "]"

/-- Modelled from the spec: the positioning parser binds each
pair-positioning row to a PairPos rule, preserving class-vs-single-glyph
operands exactly as declared in the row (the MTI glyph form and class form
are distinct row shapes, reflected here by the `GlyphSet` constructor of
each operand); the kern value becomes the first glyph's x-advance
(mti_parser is missing from src). -/
def parsePairRules (rows : List (GlyphSet × Int × GlyphSet)) : List Rule :=
  rows.map (fun row => Rule.pairPos row.1 ⟨0, 0, row.2.1, 0⟩ row.2.2)

/-- The first operand of a pair-positioning rule, if the rule is one. -/
def Rule.pairFirst : Rule → Option GlyphSet
  | .pairPos a _ _ => some a
  | _ => none

/-- The second operand of a pair-positioning rule, if the rule is one. -/
def Rule.pairSecond : Rule → Option GlyphSet
  | .pairPos _ _ b => some b
  | _ => none

/-! ## Feature assembler -/

/-- Modelled from the spec: one raw (feature tag, script, language,
lookup-id sequence) association as it occurs in the source document
(mti_parser is missing from src). -/
structure FeatureAssoc where
  tag : String
  script : String
  language : Option String
  lookups : List String
deriving DecidableEq, Repr

/-- One script/language entry of an emitted feature block. -/
structure ScriptEntry where
  script : String
  language : Option String
  lookups : List String
deriving DecidableEq, Repr

/-- Modelled from the spec: a feature block groups an ordered sequence of
script/language entries under one tag (mti_parser is missing from src). -/
structure FeatureBlock where
  tag : String
  entries : List ScriptEntry
deriving DecidableEq, Repr

/-- True when a script never occurs with an explicit language tag for the
given feature tag anywhere in the raw associations. -/
def scriptDefaultOnly (assocs : List FeatureAssoc) (tag script : String) : Bool :=
  assocs.all (fun a => !(a.tag == tag && a.script == script && a.language.isSome))

/-- True when a block can absorb a further default-language association:
same tag, and every entry already in it is a default-language entry with
the identical ordered lookup-id sequence for a default-only script. -/
def sharedDefaultBlock (assocs : List FeatureAssoc) (a : FeatureAssoc) (b : FeatureBlock) : Bool :=
  b.tag == a.tag &&
    b.entries.all (fun e =>
      e.language.isNone && e.lookups == a.lookups && scriptDefaultOnly assocs a.tag e.script)

/-- Merges a default-language association into the first block that can
absorb it, or appends a new block. -/
def mergeDefault (assocs : List FeatureAssoc) : List FeatureBlock → FeatureAssoc → List FeatureBlock
  | [], a => [⟨a.tag, [⟨a.script, none, a.lookups⟩]⟩]
  | b :: rest, a =>
      if sharedDefaultBlock assocs a b then
        ⟨b.tag, b.entries ++ [⟨a.script, none, a.lookups⟩]⟩ :: rest
      else
        b :: mergeDefault assocs rest a

/-- Modelled from the spec: feature consolidation (sections 3, 4.5 and 8).
Associations are consumed in source order; identical script-less (default
language) associations with the same ordered lookup-id sequence are merged
into one feature block, entries differing by language tag are kept
distinct even if they reference the same lookups, and a script that also
carries a language-specific association keeps its own default block
(mti_parser is missing from src; the grouping rule is reconstructed from
the spec's consolidation description and its stated example). -/
def assembleFeatures (assocs : List FeatureAssoc) : List FeatureBlock :=
  assocs.foldl
    (fun blocks a =>
      if a.language.isSome then
        blocks ++ [⟨a.tag, [⟨a.script, a.language, a.lookups⟩]⟩]
      else if scriptDefaultOnly assocs a.tag a.script then
        mergeDefault assocs blocks a
      else
        blocks ++ [⟨a.tag, [⟨a.script, none, a.lookups⟩]⟩])
    []

/-! ## Serializer

Modelled from the spec: the serializer renders the document as
feature-file text with deterministic statement ordering and whitespace
(section 4.5).  Glyphs within one numbered mark-filtering set are unordered
in the data model (section 3), so the serializer renders them sorted to
keep the output deterministic. -/

def renderAnchor (a : AnchorPoint) : String :=
  match a.contour_point with
  | none => "<anchor " ++ toString a.x ++ " " ++ toString a.y ++ ">"
  | some cp => "<anchor " ++ toString a.x ++ " " ++ toString a.y ++ " contourpoint " ++ toString cp ++ ">"

def renderValueRecord (v : ValueRecord) : String :=
  "<" ++ toString v.xPlacement ++ " " ++ toString v.yPlacement ++ " " ++
    toString v.xAdvance ++ " " ++ toString v.yAdvance ++ ">"

/-- Renders one rule in feature-file statement syntax. -/
def renderRule : Rule → String
  | .singlePos t v => "pos " ++ renderGlyphSet t ++ " " ++ renderValueRecord v ++ ";"
  | .pairPos a v b =>
      "pos " ++ renderGlyphSet a ++ " " ++ renderGlyphSet b ++ " " ++ toString v.xAdvance ++ ";"
  | .cursivePos t e x =>
      "pos cursive " ++ renderGlyphSet t ++ " " ++ renderAnchor e ++ " " ++ renderAnchor x ++ ";"
  | .markToBasePos b mc => "pos base " ++ renderGlyphSet b ++ " mark @" ++ mc ++ ";"
  | .markToLigaturePos l mc _ => "pos ligature " ++ renderGlyphSet l ++ " mark @" ++ mc ++ ";"
  | .chainContextPos ctxBefore marked ctxAfter _ =>
      "pos " ++ joinSpace (ctxBefore.map renderGlyphSet) ++ " | " ++
        joinSpace (marked.map renderGlyphSet) ++ " | " ++
        joinSpace (ctxAfter.map renderGlyphSet) ++ ";"
  | .singleSub t r => "sub " ++ renderGlyphSet t ++ " by " ++ renderGlyphSet r ++ ";"
  | .multipleSub t rs => "sub " ++ t ++ " by " ++ joinSpace rs ++ ";"
  | .alternateSub t alts => "sub " ++ t ++ " from [" ++ joinSpace alts ++ "];"
  | .ligatureSub comps rep => "sub " ++ joinSpace (comps.map renderGlyphSet) ++ " by " ++ rep ++ ";"
  | .chainContextSub ctxBefore marked ctxAfter _ =>
      "sub " ++ joinSpace (ctxBefore.map renderGlyphSet) ++ " | " ++
        joinSpace (marked.map renderGlyphSet) ++ " | " ++
        joinSpace (ctxAfter.map renderGlyphSet) ++ ";"
  | .reverseChainSub oldPre oldSuf t r =>
      "rsub " ++ joinSpace (oldPre.map renderGlyphSet) ++ " | " ++ renderGlyphSet t ++ " | " ++
        joinSpace (oldSuf.map renderGlyphSet) ++ " by " ++ renderGlyphSet r ++ ";"

/-- Renders one marked position with its attached lookup invocations. -/
def renderMarkedSlot (g : GlyphSet) (slot : List String) : String :=
  renderGlyphSet g ++ "\x27" ++ joinSpace (slot.map (fun id => " lookup " ++ id))

def renderEmitted : EmittedStmt → String
  | .comment lookupId pairs =>
      "# Lookup " ++ lookupId ++ " has syntax that cannot be expressed in ADFKO: " ++
        joinSpace (pairs.map (fun p => toString p.1 ++ "," ++ p.2)) ++
        ". If the order of application matters here, you will need to restructure this rule."
  | .chainStmt isSub ctxBefore marked ctxAfter slots =>
      (if isSub then "sub " else "pos ") ++
        joinSpace (ctxBefore.map renderGlyphSet) ++ " " ++
        joinSpace (marked.zipWith renderMarkedSlot slots) ++ " " ++
        joinSpace (ctxAfter.map renderGlyphSet) ++ ";"
  | .plain r => renderRule r

/-- Newline-joined concatenation of rendered lines. -/
def joinLines : List String → String
  | [] => ""
  | [s] => s
  | s :: rest => s ++ "\n" ++ joinLines rest

instance : DecidableRel (fun a b : String => a ≤ b) := fun a b => inferInstanceAs (Decidable (a ≤ b))

instance : IsAntisymm String (fun a b => a ≤ b) := ⟨fun _ _ => le_antisymm⟩

instance : IsTotal String (fun a b => a ≤ b) := ⟨le_total⟩

instance : IsTrans String (fun a b => a ≤ b) := ⟨fun _ _ _ => le_trans⟩

/-- Renders one numbered mark-filtering set.  Its glyphs are an unordered
collection in the data model, so they are sorted before rendering to keep
the output deterministic. -/
def renderMarkFilterSet (n : Nat) (glyphs : List String) : String :=
  "@MarkFilterSet" ++ toString n ++ " = [" ++
    joinSpace (List.insertionSort (fun a b : String => a ≤ b) glyphs) ++ "];"

def renderMarkClass (mc : MarkClass) : String :=
  joinLines (mc.definitions.map (fun d =>
    "markClass " ++ renderGlyphSet d.1 ++ " " ++ renderAnchor d.2 ++ " @" ++ mc.name ++ ";"))

/-- Renders one lookup block (warnings are reported separately and do not
appear in the text). -/
def renderLookup (L : ParsedLookup) : String :=
  let emitted := emitRules L.lookupId L.rules
  joinLines (["lookup " ++ L.lookupId ++ " \x7b"] ++ emitted.2.map renderEmitted ++
    ["\x7d " ++ L.lookupId ++ ";"])

def renderScriptEntry (e : ScriptEntry) : String :=
  joinLines (["script " ++ e.script ++ ";"] ++
    (match e.language with
     | none => []
     | some lang => ["language " ++ lang ++ ";"]) ++
    e.lookups.map (fun id => "lookup " ++ id ++ ";"))

def renderFeatureBlock (fb : FeatureBlock) : String :=
  joinLines (["feature " ++ fb.tag ++ " \x7b"] ++ fb.entries.map renderScriptEntry ++
    ["\x7d " ++ fb.tag ++ ";"])

/-- Modelled from the spec: one complete input bundle — the raw
glyph-definition class rows, the mark-filtering sets, the mark-class
definition occurrences in source order, the positioning and substitution
lookups, and the raw feature associations (mti_parser is missing from
src). -/
structure MtiBundle where
  gdefClassRows : List (String × Nat)
  markFilterRows : List (Nat × List String)
  markClassRows : List (String × List (GlyphSet × AnchorPoint))
  posLookups : List (String × List Rule)
  subLookups : List (String × List Rule)
  assocs : List FeatureAssoc
deriving DecidableEq

/-- Modelled from the spec: the complete parse-and-serialize
transformation — parse the glyph-definition classes, build the mark-class
registry and the lookup registry, consolidate the feature associations,
and render the whole document as text (mti_parser is missing from src). -/
def parseAndSerialize (b : MtiBundle) : Except ParseError String :=
  match parseGlyphClasses b.gdefClassRows with
  | .error e => .error e
  | .ok slots =>
      let markReg := b.markClassRows.foldl (fun reg nc => registerMarkClass reg nc.1 nc.2) []
      let lookups := (b.posLookups ++ b.subLookups).map (fun nr => mkParsedLookup nr.1 nr.2)
      let blocks := assembleFeatures b.assocs
      .ok (joinLines
        (slots.map joinSpace ++
          b.markFilterRows.map (fun fs => renderMarkFilterSet fs.1 fs.2) ++
          markReg.map renderMarkClass ++
          lookups.map renderLookup ++
          blocks.map renderFeatureBlock))

/-! ## Theorems -/

/-- C10: equivalent_point is partial in its source box: a source bounding
box with zero width (xMax = xMin) or zero height (yMax = yMin) hits the
unguarded scale divisions and the function fails; under the precondition
that source width and height are both nonzero it always returns a point
with integer (truncated) coordinates, and when the source and destination
bounding boxes are equal it returns the source point unchanged for
integer-coordinate inputs. -/
theorem equivalent_point_partiality_and_identity :
    (∀ (p : RatPoint) (src dst : BoundingBox),
        src.xMax = src.xMin ∨ src.yMax = src.yMin → equivalent_point p src dst = none) ∧
    (∀ (p : RatPoint) (src dst : BoundingBox),
        src.xMax - src.xMin ≠ 0 → src.yMax - src.yMin ≠ 0 →
        ∃ q : IntPoint, equivalent_point p src dst = some q) ∧
    (∀ (p : RatPoint) (src : BoundingBox),
        src.xMax - src.xMin ≠ 0 → src.yMax - src.yMin ≠ 0 →
        p.x.den = 1 → p.y.den = 1 →
        equivalent_point p src src = some ⟨p.x.num, p.y.num⟩) := by
  refine ⟨?_, ?_, ?_⟩
  · intro p src dst h
    have hz : src.xMax - src.xMin = 0 ∨ src.yMax - src.yMin = 0 := by
      rcases h with h | h
      · exact Or.inl (by rw [h, sub_self])
      · exact Or.inr (by rw [h, sub_self])
    simp only [equivalent_point]
    rw [if_pos hz]
  · intro p src dst hw hh
    have hz : ¬(src.xMax - src.xMin = 0 ∨ src.yMax - src.yMin = 0) := by
      push_neg
      exact ⟨hw, hh⟩
    refine ⟨⟨ratTrunc ((p.x - src.xMin) * ((dst.xMax - dst.xMin) / (src.xMax - src.xMin)) + dst.xMin),
        ratTrunc ((p.y - src.yMin) * ((dst.yMax - dst.yMin) / (src.yMax - src.yMin)) + dst.yMin)⟩, ?_⟩
    simp only [equivalent_point]
    rw [if_neg hz]
  · intro p src hw hh hx hy
    have hz : ¬(src.xMax - src.xMin = 0 ∨ src.yMax - src.yMin = 0) := by
      push_neg
      exact ⟨hw, hh⟩
    have hdx : (p.x - src.xMin) * ((src.xMax - src.xMin) / (src.xMax - src.xMin)) + src.xMin = p.x := by
      rw [div_self hw, mul_one]
      ring
    have hdy : (p.y - src.yMin) * ((src.yMax - src.yMin) / (src.yMax - src.yMin)) + src.yMin = p.y := by
      rw [div_self hh, mul_one]
      ring
    have tx : ratTrunc p.x = p.x.num := by
      unfold ratTrunc
      rw [hx]
      simp
    have ty : ratTrunc p.y = p.y.num := by
      unfold ratTrunc
      rw [hy]
      simp
    simp only [equivalent_point]
    rw [if_neg hz]
    simp only [hdx, hdy, tx, ty]

/-- Witness for C10 at concrete inputs drawn from the repository's own
tests: a degenerate (zero-width) source box fails, the test fixture
succeeds, and an identical-box transformation is the identity on an
integer point. -/
theorem equivalent_point_partiality_and_identity_witness :
    equivalent_point ⟨5, 5⟩ ⟨0, 0, 0, 10⟩ ⟨0, 0, 10, 10⟩ = none ∧
    (∃ q : IntPoint, equivalent_point ⟨25, 30⟩ ⟨30, 0, 40, 60⟩ ⟨30, 0, 60, 60⟩ = some q) ∧
    equivalent_point ⟨2, 3⟩ ⟨0, 0, 10, 10⟩ ⟨0, 0, 10, 10⟩ = some ⟨2, 3⟩ := by
  refine ⟨equivalent_point_partiality_and_identity.1 _ _ _ (Or.inl rfl),
    equivalent_point_partiality_and_identity.2.1 _ _ _ (by norm_num) (by norm_num), ?_⟩
  have h := equivalent_point_partiality_and_identity.2.2 ⟨2, 3⟩ ⟨0, 0, 10, 10⟩
    (by norm_num) (by norm_num) (by norm_num) (by norm_num)
  simpa using h

/-- C9: for a Font whose UFO has no feature text (features is None), both
the compiled-GDEF accessor and glyph_classes evaluate to None: no error
and no empty mapping. -/
theorem glyph_classes_none_of_no_features {φ : Type}
    (compileGDEF : φ → List String → GdefTable) (f : FontModel φ)
    (h : f.features = none) :
    Font.gdefTable compileGDEF f = none ∧ Font.glyph_classes compileGDEF f = none := by
  have h1 : Font.gdefTable compileGDEF f = none := by
    unfold Font.gdefTable
    rw [h]
  refine ⟨h1, ?_⟩
  unfold Font.glyph_classes
  rw [h1]

/-- Witness for C9: a featureless font with an arbitrary compiler. -/
theorem glyph_classes_none_of_no_features_witness :
    Font.gdefTable (fun (_ : Unit) (_ : List String) => ⟨[]⟩) ⟨none, []⟩ = none ∧
    Font.glyph_classes (fun (_ : Unit) (_ : List String) => ⟨[]⟩) ⟨none, []⟩ = none :=
  glyph_classes_none_of_no_features _ _ rfl

/-- The flag value carried after folding `flrStep`: the last flag
statement seen, if any. -/
def lastFlag {α : Type} : List (FeaStmt α) → Option LookupFlag → Option LookupFlag
  | [], acc => acc
  | .flagStmt v ma mf :: rest, _ => lastFlag rest (some (LookupFlag.from_ast v ma mf))
  | .ruleStmt _ :: rest, acc => lastFlag rest acc

theorem foldl_flrStep_char {α : Type} :
    ∀ (stmts : List (FeaStmt α)) (acc : Option LookupFlag × List (FeaStmt α)),
      stmts.foldl flrStep acc =
        (lastFlag stmts acc.1, acc.2 ++ stmts.filter (fun s => !s.isFlag))
  | [], acc => by simp [lastFlag]
  | .flagStmt v ma mf :: rest, acc => by
      rw [List.foldl_cons, foldl_flrStep_char rest]
      simp [flrStep, lastFlag, FeaStmt.isFlag, List.filter]
  | .ruleStmt r :: rest, acc => by
      rw [List.foldl_cons, foldl_flrStep_char rest]
      simp [flrStep, lastFlag, FeaStmt.isFlag, List.filter]

theorem lastFlag_of_no_flags {α : Type} :
    ∀ (stmts : List (FeaStmt α)) (acc : Option LookupFlag),
      (∀ s ∈ stmts, s.isFlag = false) → lastFlag stmts acc = acc
  | [], _, _ => rfl
  | .flagStmt v ma mf :: rest, acc, h => by
      have := h (.flagStmt v ma mf) (by simp)
      simp [FeaStmt.isFlag] at this
  | .ruleStmt r :: rest, acc, h => by
      rw [lastFlag]
      exact lastFlag_of_no_flags rest acc (fun s hs => h s (by simp [hs]))

/-- C7: a leading flag directive inside a lookup block sets the lookup's
flags and is excluded from its rules: the resulting rules sequence equals
the non-flag statements (so it contains no lookup-flag statement), the
flags field carries the directive's value, and it stays unset when no flag
directive occurs in the block. -/
theorem lookup_flag_extraction {α : Type} (name : String) (stmts : List (FeaStmt α)) :
    ((from_lookup_reference name stmts).rules = stmts.filter (fun s => !s.isFlag)) ∧
    (∀ s ∈ (from_lookup_reference name stmts).rules, s.isFlag = false) ∧
    ((∀ s ∈ stmts, s.isFlag = false) → (from_lookup_reference name stmts).flags = none) ∧
    (∀ (v : Nat) (ma mf : Option String) (rest : List (FeaStmt α)),
        stmts = FeaStmt.flagStmt v ma mf :: rest →
        (∀ s ∈ rest, s.isFlag = false) →
        (from_lookup_reference name stmts).flags = some (LookupFlag.from_ast v ma mf)) := by
  have hchar := foldl_flrStep_char stmts ((none : Option LookupFlag), ([] : List (FeaStmt α)))
  have hrules : (from_lookup_reference name stmts).rules = stmts.filter (fun s => !s.isFlag) := by
    unfold from_lookup_reference
    rw [hchar]
    simp
  have hflags : (from_lookup_reference name stmts).flags = lastFlag stmts none := by
    unfold from_lookup_reference
    rw [hchar]
  refine ⟨hrules, ?_, ?_, ?_⟩
  · intro s hs
    rw [hrules] at hs
    have := List.of_mem_filter hs
    simpa using this
  · intro h
    rw [hflags]
    exact lastFlag_of_no_flags stmts none h
  · intro v ma mf rest hst hrest
    rw [hflags, hst, lastFlag]
    exact lastFlag_of_no_flags rest _ hrest

/-- Witness for C7: a block with one leading flag directive and two rules,
and a block with no flag directive. -/
theorem lookup_flag_extraction_witness :
    (from_lookup_reference "GSUB_test"
        [FeaStmt.flagStmt 8 none none, FeaStmt.ruleStmt (1 : Nat), FeaStmt.ruleStmt 2]).flags =
      some (LookupFlag.from_ast 8 none none) ∧
    (from_lookup_reference "GSUB_test" [FeaStmt.ruleStmt (1 : Nat)]).flags = none :=
  ⟨(lookup_flag_extraction "GSUB_test" _).2.2.2 8 none none
      [FeaStmt.ruleStmt 1, FeaStmt.ruleStmt 2] rfl (by decide),
   (lookup_flag_extraction "GSUB_test" _).2.2.1 (by decide)⟩

/-- C4: for every lookup produced by the parsers, the dependency set is
exactly the set of lookup ids invoked anywhere inside the lookup's
ChainContext* rules — no edge missing, no extra edge — and a lookup with
no contextual invocations has an empty dependency set. -/
theorem dependencies_exact (lookupId : String) (rules : List Rule) :
    (∀ d, d ∈ (mkParsedLookup lookupId rules).dependencies ↔
        ∃ r ∈ rules, d ∈ r.invokedIds) ∧
    ((∀ r ∈ rules, r.isChainContext = false) →
        (mkParsedLookup lookupId rules).dependencies = []) := by
  have hmem : ∀ d, d ∈ (mkParsedLookup lookupId rules).dependencies ↔
      ∃ r ∈ rules, d ∈ r.invokedIds := by
    intro d
    simp [mkParsedLookup, buildDependencies, List.mem_dedup, List.mem_flatMap]
  refine ⟨hmem, ?_⟩
  intro h
  have hnil : ∀ r ∈ rules, r.invokedIds = [] := by
    intro r hr
    have hc := h r hr
    cases r <;> simp_all [Rule.isChainContext, Rule.invokedIds, Rule.invocations]
  apply List.eq_nil_iff_forall_not_mem.mpr
  intro d hd
  obtain ⟨r, hr, hdr⟩ := (hmem d).mp hd
  rw [hnil r hr] at hdr
  exact List.not_mem_nil d hdr

/-- Witness for C4: a lookup whose single rule is non-contextual has no
dependencies. -/
theorem dependencies_exact_witness :
    (mkParsedLookup "GSUB_alt-fractions"
        [Rule.singleSub (GlyphSet.single "onehalf") (GlyphSet.single "onehalf.alt")]).dependencies =
      [] :=
  (dependencies_exact "GSUB_alt-fractions" _).2 (by decide)

/-- C2: registering the same mark-class name twice (as happens when two
mark-to-base or mark-to-ligature rules cite one class name with different
attached definition lists) yields exactly one MarkClass of that name, and
its definitions are the ones supplied by the first occurrence only. -/
theorem mark_class_first_definition_wins (reg : List MarkClass) (name : String)
    (d1 d2 : List (GlyphSet × AnchorPoint))
    (h : ∀ mc ∈ reg, mc.name ≠ name) :
    (registerMarkClass (registerMarkClass reg name d1) name d2).filter
        (fun mc => mc.name == name) = [⟨name, d1⟩] := by
  have hany : reg.any (fun mc => mc.name == name) = false := by
    rw [List.any_eq_false]
    intro mc hmc
    simpa using h mc hmc
  have h1 : registerMarkClass reg name d1 = reg ++ [⟨name, d1⟩] := by
    unfold registerMarkClass
    rw [hany]
    rfl
  have hany2 : (reg ++ [(⟨name, d1⟩ : MarkClass)]).any (fun mc => mc.name == name) = true := by
    rw [List.any_eq_true]
    exact ⟨⟨name, d1⟩, by simp, by simp⟩
  have h2 : registerMarkClass (reg ++ [⟨name, d1⟩]) name d2 = reg ++ [⟨name, d1⟩] := by
    unfold registerMarkClass
    rw [hany2]
    rfl
  rw [h1, h2, List.filter_append]
  have hfil : reg.filter (fun mc => mc.name == name) = [] := by
    rw [List.filter_eq_nil_iff]
    intro mc hmc
    simpa using h mc hmc
  rw [hfil]
  simp

/-- Witness for C2: an empty registry, then two definition occurrences of
one mark-class name; only the first occurrence's definitions survive. -/
theorem mark_class_first_definition_wins_witness :
    (registerMarkClass
        (registerMarkClass [] "GPOS_MC001" [(GlyphSet.cls ["bindigurmukhi"], ⟨-184, 1183, some 16⟩)])
        "GPOS_MC001" [(GlyphSet.cls ["FathatanNS"], ⟨281, 1388, some 0⟩)]).filter
      (fun mc => mc.name == "GPOS_MC001") =
      [⟨"GPOS_MC001", [(GlyphSet.cls ["bindigurmukhi"], ⟨-184, 1183, some 16⟩)]⟩] :=
  mark_class_first_definition_wins [] "GPOS_MC001" _ _ (by simp)

/-- C5: for valid class-definition rows in which one of the four
positional class slots has no assignment, parsing succeeds and the
resulting slots record an empty sequence for that slot. -/
theorem gdef_missing_slot_empty (rows : List (String × Nat)) (c : Nat)
    (hvalid : ∀ gc ∈ rows, 1 ≤ gc.2 ∧ gc.2 ≤ 4)
    (hc1 : 1 ≤ c) (hc4 : c ≤ 4)
    (hmiss : ∀ gc ∈ rows, gc.2 ≠ c) :
    ∃ slots, parseGlyphClasses rows = .ok slots ∧ slots.length = 4 ∧
      slots[c - 1]? = some [] := by
  have hfind : rows.find? (fun gc => !(1 ≤ gc.2 && gc.2 ≤ 4)) = none := by
    rw [List.find?_eq_none]
    intro gc hgc
    have := hvalid gc hgc
    simp [this.1, this.2]
  have hok : parseGlyphClasses rows =
      .ok [classSlot rows 1, classSlot rows 2, classSlot rows 3, classSlot rows 4] := by
    unfold parseGlyphClasses
    rw [hfind]
  have hslot : classSlot rows c = [] := by
    unfold classSlot
    have : rows.filter (fun gc => gc.2 == c) = [] := by
      rw [List.filter_eq_nil_iff]
      intro gc hgc
      simpa using hmiss gc hgc
    rw [this]
    rfl
  refine ⟨_, hok, by simp, ?_⟩
  interval_cases c <;> simpa using hslot

/-- Witness for C5: the gdefclasses fixture shape with the fourth
(component) slot omitted. -/
theorem gdef_missing_slot_empty_witness :
    ∃ slots, parseGlyphClasses [("A", 1), ("C", 1), ("fi", 2), ("breve", 3)] = .ok slots ∧
      slots.length = 4 ∧ slots[3]? = some [] :=
  gdef_missing_slot_empty _ 4 (by decide) (by decide) (by decide) (by decide)

/-- C6: operands keep their declared kind: the pair-positioning parser
maps each row's operands through unchanged (a class stays a class, a
single glyph stays a single glyph), a one-element class is serialized with
class syntax and so differs from the bare glyph form, and the glyph form
and class form of equivalent pair data parse to structurally different
rule sequences. -/
theorem operand_kind_preserved :
    (∀ rows : List (GlyphSet × Int × GlyphSet),
        (parsePairRules rows).map Rule.pairFirst = rows.map (fun row => some row.1) ∧
        (parsePairRules rows).map Rule.pairSecond = rows.map (fun row => some row.2.2)) ∧
    (∀ g : String,
        renderGlyphSet (GlyphSet.cls [g]) ≠ renderGlyphSet (GlyphSet.single g)) ∧
    parsePairRules [(GlyphSet.cls ["A"], -50, GlyphSet.single "V")] ≠
      parsePairRules [(GlyphSet.single "A", -50, GlyphSet.single "V")] := by
  refine ⟨?_, ?_, by decide⟩
  · intro rows
    constructor <;>
      simp [parsePairRules, Rule.pairFirst, Rule.pairSecond, List.map_map, Function.comp]
  · intro g h
    have hl := congrArg String.length h
    have h1 : "[".length = 1 := rfl
    have h2 : "]".length = 1 := rfl
    simp [renderGlyphSet, joinSpace, String.length_append, h1, h2] at hl
    omega

/-- Witness for C6: the one-element class over the glyph A keeps class
form, and its rendering differs from the bare glyph form. -/
theorem operand_kind_preserved_witness :
    (parsePairRules [(GlyphSet.cls ["A"], -50, GlyphSet.single "V")]).map Rule.pairFirst =
      [some (GlyphSet.cls ["A"])] ∧
    renderGlyphSet (GlyphSet.cls ["A"]) ≠ renderGlyphSet (GlyphSet.single "A") :=
  ⟨(operand_kind_preserved.1 [(GlyphSet.cls ["A"], -50, GlyphSet.single "V")]).1,
   operand_kind_preserved.2.1 "A"⟩

/-- C3: on the raw associations (cyrl, none, [L0]), (grek, none, [L0]),
(latn, none, [L0]), (latn, DEU, [L0]) for one feature tag, the assembler
emits exactly three feature blocks — cyrl then grek merged into one block,
latn with the default language alone, and latn with language DEU alone —
and never a single fully merged block spanning all four associations. -/
theorem feature_consolidation_example :
    assembleFeatures
        [⟨"test", "cyrl", none, ["L0"]⟩, ⟨"test", "grek", none, ["L0"]⟩,
         ⟨"test", "latn", none, ["L0"]⟩, ⟨"test", "latn", some "DEU", ["L0"]⟩] =
      [⟨"test", [⟨"cyrl", none, ["L0"]⟩, ⟨"grek", none, ["L0"]⟩]⟩,
       ⟨"test", [⟨"latn", none, ["L0"]⟩]⟩,
       ⟨"test", [⟨"latn", some "DEU", ["L0"]⟩]⟩] ∧
    (assembleFeatures
        [⟨"test", "cyrl", none, ["L0"]⟩, ⟨"test", "grek", none, ["L0"]⟩,
         ⟨"test", "latn", none, ["L0"]⟩, ⟨"test", "latn", some "DEU", ["L0"]⟩]).length = 3 := by
  constructor
  · decide
  · decide

/-- C8: serialization is deterministic — the complete parse-and-serialize
transformation is a pure function of the input bundle, so two runs on the
identical input produce byte-identical text; moreover the only unordered
collection in the data model (the glyphs of a mark-filtering set) is
rendered sorted, so its rendering does not depend on the order in which
the set's glyphs were enumerated. -/
theorem serialization_deterministic :
    (∀ b1 b2 : MtiBundle, b1 = b2 → parseAndSerialize b1 = parseAndSerialize b2) ∧
    (∀ (n : Nat) (l1 l2 : List String), l1.Perm l2 →
        renderMarkFilterSet n l1 = renderMarkFilterSet n l2) := by
  constructor
  · intro b1 b2 h
    rw [h]
  · intro n l1 l2 h
    unfold renderMarkFilterSet
    have hs1 : List.Sorted (fun a b : String => a ≤ b)
        (List.insertionSort (fun a b : String => a ≤ b) l1) :=
      List.sorted_insertionSort _ _
    have hs2 : List.Sorted (fun a b : String => a ≤ b)
        (List.insertionSort (fun a b : String => a ≤ b) l2) :=
      List.sorted_insertionSort _ _
    have hperm : (List.insertionSort (fun a b : String => a ≤ b) l1).Perm
        (List.insertionSort (fun a b : String => a ≤ b) l2) :=
      (List.perm_insertionSort _ _).trans (h.trans (List.perm_insertionSort _ _).symm)
    rw [List.eq_of_perm_of_sorted hperm hs1 hs2]

/-- Witness for C8: a run repeated on one concrete bundle, and a filter
set enumerated in two different orders. -/
theorem serialization_deterministic_witness :
    parseAndSerialize ⟨[("A", 1)], [(1, ["acute", "breve"])], [], [("GPOS_0", [])], [], []⟩ =
      parseAndSerialize ⟨[("A", 1)], [(1, ["acute", "breve"])], [], [("GPOS_0", [])], [], []⟩ ∧
    renderMarkFilterSet 1 ["breve", "acute"] = renderMarkFilterSet 1 ["acute", "breve"] :=
  ⟨serialization_deterministic.1 _ _ rfl,
   serialization_deterministic.2 1 _ _ (List.Perm.swap _ _ _)⟩

theorem isAscending_iff_chain' : ∀ l : List Nat, isAscending l = true ↔ List.Chain' (· ≤ ·) l
  | [] => by simp [isAscending]
  | [a] => by simp [isAscending]
  | a :: b :: t => by
      rw [isAscending, Bool.and_eq_true, decide_eq_true_iff, isAscending_iff_chain' (b :: t),
        List.chain'_cons]

theorem isAscending_iff_sorted (l : List Nat) :
    isAscending l = true ↔ List.Sorted (· ≤ ·) l := by
  rw [isAscending_iff_chain']
  exact List.chain'_iff_pairwise

theorem sorted_iff_insertionSort_eq (l : List Nat) :
    List.Sorted (· ≤ ·) l ↔ List.insertionSort (· ≤ ·) l = l := by
  constructor
  · exact List.Sorted.insertionSort_eq
  · intro h
    rw [← h]
    exact List.sorted_insertionSort _ l

theorem ambiguousB_iff_specAmbiguous (r : Rule) :
    ambiguousB r = true ↔ specAmbiguous r := by
  unfold ambiguousB specAmbiguous
  rw [Bool.not_eq_true']
  constructor
  · intro hfalse heq
    have hs : List.Sorted (· ≤ ·) (appOrderPositions r) := by
      rw [heq]
      exact List.sorted_insertionSort _ _
    rw [← isAscending_iff_sorted] at hs
    rw [hs] at hfalse
    simp at hfalse
  · intro hne
    cases hAsc : isAscending (appOrderPositions r) with
    | false => rfl
    | true =>
        have hs := (isAscending_iff_sorted _).mp hAsc
        exact absurd ((sorted_iff_insertionSort_eq _).mp hs).symm hne

theorem emitRule_warn_length (lookupId : String) (r : Rule) :
    (emitRule lookupId r).1.length = if ambiguousB r then 1 else 0 := by
  cases r <;>
    simp [emitRule, ambiguousB, outOfOrder, appOrderPositions, Rule.invocations,
      sortByAppOrder, isAscending] <;>
    split <;> simp_all

theorem emitRule_comment_count (lookupId : String) (r : Rule) :
    ((emitRule lookupId r).2.countP EmittedStmt.isComment) = if ambiguousB r then 1 else 0 := by
  cases r <;>
    simp [emitRule, ambiguousB, outOfOrder, appOrderPositions, Rule.invocations,
      sortByAppOrder, isAscending, List.countP_cons, EmittedStmt.isComment] <;>
    split <;> simp_all [List.countP_cons, EmittedStmt.isComment]

theorem emitRules_warn_length (lookupId : String) (rules : List Rule) :
    (emitRules lookupId rules).1.length = rules.countP (fun r => ambiguousB r) := by
  induction rules with
  | nil => simp [emitRules]
  | cons r rest ih =>
      rw [emitRules]
      simp only [List.length_append, List.countP_cons, ih, emitRule_warn_length]
      by_cases hc : ambiguousB r = true
      · simp [hc]
        omega
      · simp [hc]

theorem emitRules_comment_count (lookupId : String) (rules : List Rule) :
    ((emitRules lookupId rules).2.countP EmittedStmt.isComment) =
      rules.countP (fun r => ambiguousB r) := by
  induction rules with
  | nil => simp [emitRules]
  | cons r rest ih =>
      rw [emitRules]
      simp only [List.countP_append, List.countP_cons, ih, emitRule_comment_count]
      by_cases hc : ambiguousB r = true
      · simp [hc]
        omega
      · simp [hc]

theorem fillSlots_length (vs : List LookupInvocation) (slots : List (List String)) :
    (fillSlots vs slots).length = slots.length := by
  induction vs generalizing slots with
  | nil => rfl
  | cons v rest ih => simp [fillSlots, ih]

theorem fillSlots_getD (vs : List LookupInvocation) (slots : List (List String)) (i : Nat)
    (h : i < slots.length) :
    (fillSlots vs slots).getD i [] =
      slots.getD i [] ++ (vs.filter (fun v => v.pos == i)).map LookupInvocation.lookupId := by
  induction vs generalizing slots with
  | nil => simp [fillSlots]
  | cons v rest ih =>
      rw [fillSlots]
      by_cases hp : v.pos = i
      · subst hp
        rw [ih _ (by simpa using h)]
        have hset : (slots.set v.pos (slots.getD v.pos [] ++ [v.lookupId])).getD v.pos [] =
            slots.getD v.pos [] ++ [v.lookupId] := by
          simp [List.getD, List.getElem?_set_self, h]
        rw [hset]
        simp [List.filter_cons]
      · rw [ih _ (by simpa using h)]
        have hset : (slots.set v.pos (slots.getD v.pos [] ++ [v.lookupId])).getD i [] =
            slots.getD i [] := by
          simp [List.getD, List.getElem?_set_ne hp]
        rw [hset]
        have hfil : (List.filter (fun w => w.pos == i) (v :: rest)) =
            List.filter (fun w => w.pos == i) rest := by
          simp [List.filter_cons, hp]
        rw [hfil]

theorem chainSlots_getD (n : Nat) (invs : List LookupInvocation) (i : Nat) (h : i < n) :
    (chainSlots n invs).getD i [] =
      ((sortByAppOrder invs).filter (fun v => v.pos == i)).map LookupInvocation.lookupId := by
  unfold chainSlots
  rw [fillSlots_getD _ _ _ (by simpa using h)]
  simp [List.getD, List.getElem?_replicate, h]

/-- C1: for every parsed lookup, the ordering-ambiguity warning is emitted
iff some chain-context rule's declared application-order indices, sorted,
differ from the left-to-right positional order of its marked positions;
when triggered there is exactly one warning and exactly one inserted
comment statement per affected rule; and every emitted chain-context
statement attaches each invocation at its declared positional slot, so the
emitted rule applies its lookup invocations in positional order. -/
theorem ordering_ambiguity_detection (L : ParsedLookup) :
    ((emitRules L.lookupId L.rules).1 ≠ [] ↔ ∃ r ∈ L.rules, specAmbiguous r) ∧
    ((emitRules L.lookupId L.rules).1.length = L.rules.countP (fun r => ambiguousB r)) ∧
    ((emitRules L.lookupId L.rules).2.countP EmittedStmt.isComment =
        L.rules.countP (fun r => ambiguousB r)) ∧
    (∀ r : Rule, ambiguousB r = true ↔ specAmbiguous r) ∧
    (∀ (n : Nat) (invs : List LookupInvocation) (i : Nat), i < n →
        (chainSlots n invs).getD i [] =
          ((sortByAppOrder invs).filter (fun v => v.pos == i)).map LookupInvocation.lookupId) := by
  refine ⟨?_, emitRules_warn_length _ _, emitRules_comment_count _ _,
    ambiguousB_iff_specAmbiguous, fun n invs i h => chainSlots_getD n invs i h⟩
  constructor
  · intro hne
    have hlen : 0 < (emitRules L.lookupId L.rules).1.length := List.length_pos.mpr hne
    rw [emitRules_warn_length] at hlen
    obtain ⟨r, hr, ha⟩ := List.countP_pos_iff.mp hlen
    exact ⟨r, hr, (ambiguousB_iff_specAmbiguous r).mp ha⟩
  · rintro ⟨r, hr, hs⟩
    have hc : 0 < L.rules.countP (fun r => ambiguousB r) :=
      List.countP_pos_iff.mpr ⟨r, hr, (ambiguousB_iff_specAmbiguous r).mpr hs⟩
    rw [← emitRules_warn_length L.lookupId] at hc
    exact List.length_pos.mp hc

/-- Witness for C1 at the out-of-order fixture of the repository's tests:
the invocation declared second in application order but first in position
ends up in the first positional slot of the emitted rule. -/
theorem ordering_ambiguity_detection_witness :
    (chainSlots 2 [⟨1, 0, "GSUB_sublookup"⟩, ⟨0, 1, "GSUB_otherlookup"⟩]).getD 0 [] =
      ["GSUB_otherlookup"] := by
  have h := (ordering_ambiguity_detection (mkParsedLookup "GSUB_ooochaining" [])).2.2.2.2
    2 [⟨1, 0, "GSUB_sublookup"⟩, ⟨0, 1, "GSUB_otherlookup"⟩] 0 (by decide)
  rw [h]
  decide

end Elerium
